import Mathlib

/-!
Verification of the Django leaderboard repository
(`leaderboard_app`: `models.py`, `serializers.py`, `migrations/0001_initial.py`)
against its natural-language specification.

The repository's persistent schema and serializer methods are embedded
shallowly.  The spec's Leaderboard Ranking Engine (Score Store submit,
Aggregation Engine recompute, Rank Assigner reorder) has no implementation
under the source tree — the source only stores a plain `rank` integer — so
those operations are modelled from the spec's own contracts (§4.1–§4.3),
each such definition marked `Modelled from the spec:`.
-/

/-- A score event, after `Score` in `migrations/0001_initial.py` (lines 62–76):
integer score, timestamp, `is_verified` flag, foreign keys to game (scope) and
user.  `unique_together ('user', 'game', 'timestamp')`. -/
structure ScoreEvent where
  userId : Nat
  scopeId : Nat
  score : Int
  timestamp : Nat
  verified : Bool
deriving DecidableEq, Repr

/-- The scope's reduction policy (spec §4.2): `SUM` or `MAX`, fixed per scope. -/
inductive Policy where
  | SUM
  | MAX
deriving DecidableEq, Repr

/-- The Score Store: an append-only sequence of score events (spec §3). -/
abbrev ScoreStore := List ScoreEvent

/-- The verified events of a (user, scope) pair, in store order. -/
def verifiedFor (store : ScoreStore) (u s : Nat) : List ScoreEvent :=
  store.filter (fun e => e.userId == u && e.scopeId == s && e.verified)

/-- All events of a (user, scope) pair, verified or not, in store order. -/
def eventsOf (store : ScoreStore) (u s : Nat) : List ScoreEvent :=
  store.filter (fun e => e.userId == u && e.scopeId == s)

/-- Modelled from the spec: the policy-defined reduction (§4.2) — `SUM` is the
cumulative score across sessions, `MAX` the best single score.  Missing from
the source: no aggregation code exists in the repository. -/
def reduceScores : Policy → List Int → Int
  | .SUM, xs => xs.sum
  | .MAX, [] => 0
  | .MAX, x :: xs => xs.foldl max x

/-- Per-(user, scope) aggregate record, after the spec's Aggregate (§3) and the
source's `UserGameStats` (`models.py` lines 126–143): total_score,
games_played, high_score, last_played. -/
structure Aggregate where
  userId : Nat
  scopeId : Nat
  total_score : Int
  games_played : Nat
  high_score : Int
  last_played : Option Nat
  achieved_at : Nat
deriving DecidableEq, Repr

/-- Modelled from the spec: the earliest timestamp among the given verified
events whose score attains the aggregate total ("earliest achieving
timestamp", §4.3).  Missing from the source. -/
def achievingTimestamp (evs : List ScoreEvent) (total : Int) : Nat :=
  ((evs.filter (fun e => e.score == total)).map (·.timestamp)).foldr min
    ((evs.map (·.timestamp)).foldr max 0)

/-- Modelled from the spec: `recompute(user, scope)` (§4.2) — reads all
verified ScoreEvents for the pair, computes total_score per the scope's
reduction policy, and derives games_played, high_score and last_played.
Missing from the source: the repository stores `UserGameStats` rows but has no
code computing them. -/
def recompute (p : Policy) (store : ScoreStore) (u s : Nat) : Aggregate :=
  let evs := verifiedFor store u s
  let scores := evs.map (·.score)
  let total := reduceScores p scores
  { userId := u
    scopeId := s
    total_score := total
    games_played := evs.length
    high_score := reduceScores .MAX scores
    last_played := (evs.map (·.timestamp)).max?
    achieved_at := achievingTimestamp evs total }

/-- Per-scope configuration (spec §6): ranking policy and whether negative
scores are allowed by the scope's policy. -/
structure ScopeConfig where
  policy : Policy
  allowNegative : Bool
deriving DecidableEq, Repr

/-- Modelled from the spec: `submit(user, scope, score_value, verified)`
(§4.1) — rejects with `ValidationError` a negative score where the scope's
policy disallows it, or a duplicate event with identical
(user, scope, timestamp); otherwise appends one immutable record.  Missing
from the source: only the `Score` table with its
`unique_together ('user', 'game', 'timestamp')` constraint exists there. -/
def submit (cfg : ScopeConfig) (store : ScoreStore) (u s : Nat) (v : Int)
    (ts : Nat) (verified : Bool) : Except String ScoreStore :=
  if v < 0 && !cfg.allowNegative then
    .error "ValidationError"
  else if store.any (fun e => e.userId == u && e.scopeId == s && e.timestamp == ts) then
    .error "ValidationError"
  else
    .ok (store ++ [⟨u, s, v, ts, verified⟩])

/-- The Aggregate store: at most one row per (user, scope), mirroring
`unique_together ('user', 'activity')` on `UserGameStats` (`models.py`
line 142). -/
abbrev AggStore := List Aggregate

/-- Modelled from the spec: writing a recomputed Aggregate replaces the prior
value for the key atomically (§4.2).  Missing from the source. -/
def writeAgg (aggs : AggStore) (a : Aggregate) : AggStore :=
  a :: aggs.filter (fun b => !(b.userId == a.userId && b.scopeId == a.scopeId))

/-- Modelled from the spec: one run of the Aggregation Engine for a pair —
recompute from the event log, then replace the stored row (§4.2). -/
def runRecompute (p : Policy) (store : ScoreStore) (aggs : AggStore)
    (u s : Nat) : AggStore :=
  writeAgg aggs (recompute p store u s)

/-- A leaderboard entry, after `LeaderboardEntry` (`models.py` lines 106–123):
activity (scope), user, total_score, rank. -/
structure LBEntry where
  userId : Nat
  scopeId : Nat
  total_score : Int
  rank : Nat
deriving DecidableEq, Repr

/-- The Rank Assigner's total order on aggregates (spec §4.3): total_score
descending, then earliest achieving timestamp, then user id ascending. -/
def aggBefore (a b : Aggregate) : Prop :=
  b.total_score < a.total_score ∨
    (a.total_score = b.total_score ∧
      (a.achieved_at < b.achieved_at ∨
        (a.achieved_at = b.achieved_at ∧ a.userId ≤ b.userId)))

instance : DecidableRel aggBefore := fun a b => by
  unfold aggBefore; infer_instance

instance : IsTotal Aggregate aggBefore where
  total a b := by unfold aggBefore; omega

instance : IsTrans Aggregate aggBefore where
  trans a b c hab hbc := by unfold aggBefore at *; omega

/-- The participants of a scope: the distinct user ids having at least one
verified event there (spec §8). -/
def participants (store : ScoreStore) (s : Nat) : List Nat :=
  ((store.filter (fun e => e.scopeId == s && e.verified)).map (·.userId)).dedup

/-- The current Aggregates of a scope: one recomputed Aggregate per
participant (spec §4.3 "reads all current Aggregates for the scope"). -/
def scopeAggs (p : Policy) (store : ScoreStore) (s : Nat) : List Aggregate :=
  (participants store s).map (fun u => recompute p store u s)

/-- The scope's Aggregates sorted by the Rank Assigner's total order. -/
def sortedAggs (p : Policy) (store : ScoreStore) (s : Nat) : List Aggregate :=
  List.insertionSort aggBefore (scopeAggs p store s)

/-- Modelled from the spec: `reorder(scope)` (§4.3) — reads the current
Aggregates of the scope, sorts them by (total_score descending, earliest
achieving timestamp, user id ascending), and materializes LeaderboardEntry
rows with rank = 1-based position.  Missing from the source: the repository
stores `rank` as a plain integer with no recomputation logic. -/
def reorder (p : Policy) (store : ScoreStore) (s : Nat) : List LBEntry :=
  (sortedAggs p store s).enum.map (fun ia =>
    { userId := ia.2.userId
      scopeId := s
      total_score := ia.2.total_score
      rank := ia.1 + 1 })

/-- The default ordering of stored `Score` rows
(`migrations/0001_initial.py` line 73: `ordering ['-score', '-timestamp']`):
score descending, then timestamp descending. -/
def scoreBefore (a b : ScoreEvent) : Prop :=
  b.score < a.score ∨ (a.score = b.score ∧ b.timestamp ≤ a.timestamp)

instance : DecidableRel scoreBefore := fun a b => by
  unfold scoreBefore; infer_instance

instance : IsTotal ScoreEvent scoreBefore where
  total a b := by unfold scoreBefore; omega

instance : IsTrans ScoreEvent scoreBefore where
  trans a b c hab hbc := by unfold scoreBefore at *; omega

/-- Modelled from the spec: `eventsFor(user, scope)` (§4.1) — the pair's
ScoreEvents in the stated default ordering (score desc, timestamp desc).
Missing from the source beyond the `ordering` option on `Score`. -/
def eventsFor (store : ScoreStore) (u s : Nat) : List ScoreEvent :=
  List.insertionSort scoreBefore (eventsOf store u s)

/-- A stored leaderboard-entry row with its database identity (primary key),
after `LeaderboardEntry` (`models.py` lines 106–123). -/
structure LBRow where
  id : Nat
  activityId : Nat
  userId : Nat
  total_score : Int
  rank : Option Int
deriving DecidableEq, Repr

/-- The persistent state relevant to leaderboard-entry lifecycle: activities,
users and leaderboard-entry rows. -/
structure Database where
  activities : List Nat
  users : List Nat
  entries : List LBRow
deriving DecidableEq, Repr

/-- The operations of the system that touch leaderboard-entry rows:
lazy creation on first score, total_score/rank updates, and the two cascading
deletions declared on `LeaderboardEntry` (`models.py` lines 109–114:
`on_delete=CASCADE` for both `activity` and `user`). -/
inductive DbOp where
  | createEntry (row : LBRow)
  | updateEntry (activityId userId : Nat) (total : Int) (rank : Option Int)
  | deleteActivity (activityId : Nat)
  | deleteUser (userId : Nat)
deriving DecidableEq, Repr

/-- One step of the system: `createEntry` appends a row (no-op when the
(activity, user) key exists, per `unique_together`), `updateEntry` rewrites
the matching row's total_score and rank in place, `deleteActivity` and
`deleteUser` cascade to the entry rows per the `on_delete=CASCADE`
declarations. -/
def applyOp (db : Database) : DbOp → Database
  | .createEntry row =>
      if db.entries.any (fun e => e.activityId == row.activityId && e.userId == row.userId) then
        db
      else
        { db with entries := db.entries ++ [row] }
  | .updateEntry a u total rank =>
      { db with
        entries := db.entries.map (fun e =>
          if e.activityId == a && e.userId == u then
            { e with total_score := total, rank := rank }
          else e) }
  | .deleteActivity a =>
      { db with
        activities := db.activities.filter (fun x => x != a)
        entries := db.entries.filter (fun e => e.activityId != a) }
  | .deleteUser u =>
      { db with
        users := db.users.filter (fun x => x != u)
        entries := db.entries.filter (fun e => e.userId != u) }

/-- Whether an entry row with the given primary key is present. -/
def hasEntry (db : Database) (eid : Nat) : Bool :=
  db.entries.any (fun e => e.id == eid)

/-- A request payload for score creation, after the writable surface of
`ScoreSerializer` (`serializers.py` lines 33–45): `fields` lists game, score
and is_verified among the writable names; user and timestamp are read-only.
The payload may still carry `is_verified` and `user` values. -/
structure ScorePayload where
  game : Nat
  score : Int
  is_verified : Option Bool
  user : Option Nat
deriving DecidableEq, Repr

/-- A stored `Score` row as created by the serializer
(`migrations/0001_initial.py` lines 62–76; `is_verified` defaults to
`False`). -/
structure ScoreRow where
  game : Nat
  user : Nat
  score : Int
  is_verified : Bool
deriving DecidableEq, Repr

/-- `ScoreSerializer.create` (`serializers.py` lines 41–45): reads only
`game` and `score` from the validated data, takes the user from the request,
and creates the row without passing `is_verified`, which therefore takes its
model default `False`. -/
def ScoreSerializer.create (requestUser : Nat) (validated : ScorePayload) : ScoreRow :=
  { game := validated.game
    score := validated.score
    user := requestUser
    is_verified := false }

/-- A user row, after the fields named by `UserSerializer`
(`serializers.py` lines 13–21). -/
structure UserRow where
  id : Nat
  username : String
  email : String
  password : String
deriving DecidableEq, Repr

/-- The serialized output of `UserSerializer`: of the declared fields
`id, username, email, password`, the `password` field is `write_only`
(`serializers.py` line 17) and is omitted from the representation. -/
structure UserRepresentation where
  id : Nat
  username : String
  email : String
deriving DecidableEq, Repr

/-- `UserSerializer.to_representation`: the declared fields minus the
write-only `password`. -/
def UserSerializer.toRepresentation (u : UserRow) : UserRepresentation :=
  { id := u.id, username := u.username, email := u.email }

/-! ## Helper lemmas -/

lemma reorder_length (p : Policy) (store : ScoreStore) (s : Nat) :
    (reorder p store s).length = (sortedAggs p store s).length := by
  simp [reorder]

lemma sortedAggs_length (p : Policy) (store : ScoreStore) (s : Nat) :
    (sortedAggs p store s).length = (participants store s).length := by
  simp [sortedAggs, List.length_insertionSort, scopeAggs]

lemma reorder_map_rank (p : Policy) (store : ScoreStore) (s : Nat) :
    (reorder p store s).map (fun e => e.rank)
      = List.range' 1 (participants store s).length := by
  unfold reorder
  rw [List.map_map]
  rw [show ((fun e : LBEntry => e.rank) ∘ fun ia : Nat × Aggregate =>
        ({ userId := ia.2.userId, scopeId := s, total_score := ia.2.total_score,
           rank := ia.1 + 1 } : LBEntry))
      = ((fun i => i + 1) ∘ Prod.fst) from rfl]
  rw [← List.map_map, List.enum_map_fst, List.range'_eq_map_range,
    sortedAggs_length]
  exact List.map_congr_left fun x _ => Nat.add_comm x 1

lemma foldl_max_mem (xs : List Int) (x : Int) : xs.foldl max x ∈ x :: xs := by
  induction xs generalizing x with
  | nil => simp
  | cons y ys ih =>
    simp only [List.foldl_cons]
    rcases List.mem_cons.mp (ih (max x y)) with h | h
    · rw [h]
      rcases max_choice x y with hm | hm <;> rw [hm] <;> simp
    · simp [h]

lemma le_foldl_max (xs : List Int) (x : Int) : ∀ y ∈ x :: xs, y ≤ xs.foldl max x := by
  induction xs generalizing x with
  | nil =>
    intro y hy
    simp only [List.mem_singleton] at hy
    simp [hy]
  | cons z zs ih =>
    intro y hy
    simp only [List.foldl_cons]
    have hfold : max x z ≤ zs.foldl max (max x z) :=
      ih (max x z) (max x z) (List.mem_cons_self _ _)
    rcases List.mem_cons.mp hy with rfl | hy'
    · exact le_trans (le_max_left _ _) hfold
    · rcases List.mem_cons.mp hy' with rfl | hy''
      · exact le_trans (le_max_right _ _) hfold
      · exact ih (max x z) y (List.mem_cons.mpr (Or.inr hy''))

/-! ## Concrete stores used by witnesses -/

/-- Demo store: user 1 scored 100 (verified), user 2 scored 150 (verified),
user 3 has only an unverified event. -/
def stDemo : ScoreStore := [⟨1, 5, 100, 10, true⟩, ⟨2, 5, 150, 20, true⟩, ⟨3, 5, 7, 1, false⟩]

/-- Demo store: user 1 scored 100 twice (both verified). -/
def stTwice : ScoreStore := [⟨1, 5, 100, 10, true⟩, ⟨1, 5, 100, 20, true⟩]

/-- Demo store for the tie scenario: users 1 and 2 both total 100, user 1's
achieving event earlier (timestamp 10 vs 20). -/
def stTie : ScoreStore := [⟨1, 5, 100, 10, true⟩, ⟨2, 5, 100, 20, true⟩]

/-! ## Claims -/

/-- Claim C1: after any run of `reorder`, the ranks of the scope's entries are
exactly the contiguous sequence 1..n where n is the number of participants
with at least one verified score event; no rank repeats and every rank is a
positive integer. -/
theorem claimC1_reorder_ranks_contiguous (p : Policy) (store : ScoreStore) (s : Nat) :
    (reorder p store s).map (fun e => e.rank) = List.range' 1 (participants store s).length
    ∧ ((reorder p store s).map (fun e => e.rank)).Nodup
    ∧ ∀ e ∈ reorder p store s, 1 ≤ e.rank := by
  refine ⟨reorder_map_rank p store s, ?_, ?_⟩
  · rw [reorder_map_rank]
    exact List.nodup_range' _ _
  · intro e he
    have hmem : e.rank ∈ (reorder p store s).map (fun e => e.rank) :=
      List.mem_map_of_mem _ he
    rw [reorder_map_rank] at hmem
    exact (List.mem_range'_1.mp hmem).1

/-- Witness for C1 on `stDemo`: the rank sequence is [1, 2] (user 3 has no
verified event and is not ranked), and the top entry's rank is positive. -/
theorem claimC1_witness :
    (reorder .SUM stDemo 5).map (fun e => e.rank) = List.range' 1 (participants stDemo 5).length
    ∧ 1 ≤ ({ userId := 2, scopeId := 5, total_score := 150, rank := 1 } : LBEntry).rank :=
  ⟨(claimC1_reorder_ranks_contiguous .SUM stDemo 5).1,
   (claimC1_reorder_ranks_contiguous .SUM stDemo 5).2.2 _ (by decide)⟩

/-- Claim C2: `recompute` produces a total_score equal to the configured
reduction over exactly the pair's verified events — their sum under SUM; and
under MAX, whenever the pair has a verified event, an attained upper bound of
the verified scores (the maximum). -/
theorem claimC2_recompute_total (store : ScoreStore) (u s : Nat) :
    (recompute .SUM store u s).total_score
        = ((verifiedFor store u s).map (fun e => e.score)).sum
    ∧ (verifiedFor store u s ≠ [] →
        (recompute .MAX store u s).total_score ∈ (verifiedFor store u s).map (fun e => e.score)
        ∧ ∀ x ∈ (verifiedFor store u s).map (fun e => e.score),
            x ≤ (recompute .MAX store u s).total_score) := by
  constructor
  · rfl
  · intro hne
    have hscores : (verifiedFor store u s).map (fun e => e.score) ≠ [] := by
      simpa using hne
    rcases hlist : (verifiedFor store u s).map (fun e => e.score) with _ | ⟨x, xs⟩
    · exact absurd hlist hscores
    · have htot : (recompute .MAX store u s).total_score = xs.foldl max x := by
        simp [recompute, hlist, reduceScores]
      constructor
      · rw [htot, hlist]
        exact foldl_max_mem xs x
      · intro y hy
        rw [hlist] at hy
        rw [htot]
        exact le_foldl_max xs x y hy

/-- Witness for C2 on `stTwice` (user 1 scored 100 twice): SUM yields 200,
MAX yields an attained bound, namely 100. -/
theorem claimC2_witness :
    (recompute .SUM stTwice 1 5).total_score
        = ((verifiedFor stTwice 1 5).map (fun e => e.score)).sum
    ∧ (recompute .SUM stTwice 1 5).total_score = 200
    ∧ (recompute .MAX stTwice 1 5).total_score ∈ (verifiedFor stTwice 1 5).map (fun e => e.score)
    ∧ (recompute .MAX stTwice 1 5).total_score = 100 :=
  ⟨(claimC2_recompute_total stTwice 1 5).1, by decide,
   ((claimC2_recompute_total stTwice 1 5).2 (by decide)).1, by decide⟩

/-- Claim C3: `reorder` ranks by sorting the scope's Aggregates in the total
order (total_score descending, then earliest achieving timestamp, then user
id ascending): the sorted sequence is a permutation of all the scope's
Aggregates, consecutive positions respect the order, and the entry at
position i carries that position's aggregate with rank i + 1. -/
theorem claimC3_reorder_sort_tiebreak (p : Policy) (store : ScoreStore) (s : Nat) :
    (∀ (i j : Fin (sortedAggs p store s).length), i < j →
        aggBefore ((sortedAggs p store s).get i) ((sortedAggs p store s).get j))
    ∧ (sortedAggs p store s).Perm (scopeAggs p store s)
    ∧ ∀ (i : Fin (reorder p store s).length),
        (reorder p store s).get i =
          { userId := ((sortedAggs p store s).get (Fin.cast (reorder_length p store s) i)).userId
            scopeId := s
            total_score :=
              ((sortedAggs p store s).get (Fin.cast (reorder_length p store s) i)).total_score
            rank := i.1 + 1 } := by
  refine ⟨?_, List.perm_insertionSort _ _, ?_⟩
  · have hs : (sortedAggs p store s).Pairwise aggBefore :=
      List.sorted_insertionSort aggBefore (scopeAggs p store s)
    exact fun i j hij => List.pairwise_iff_get.mp hs i j hij
  · intro i
    simp [reorder, List.get_eq_getElem, List.getElem_map, List.getElem_enum]

/-- Witness for C3 on `stTie` (two users tied at 100, user 1's achieving event
earlier): position 0 precedes position 1 in the tie-break order, and user 1
receives rank 1, user 2 rank 2. -/
theorem claimC3_witness :
    aggBefore ((sortedAggs .SUM stTie 5).get ⟨0, by decide⟩)
        ((sortedAggs .SUM stTie 5).get ⟨1, by decide⟩)
    ∧ (reorder .SUM stTie 5).map (fun e => (e.userId, e.rank)) = [(1, 1), (2, 2)] :=
  ⟨(claimC3_reorder_sort_tiebreak .SUM stTie 5).1 ⟨0, by decide⟩ ⟨1, by decide⟩ (by decide),
   by decide⟩

lemma dup_any_iff (store : ScoreStore) (u s ts : Nat) :
    store.any (fun e => e.userId == u && e.scopeId == s && e.timestamp == ts) = true
      ↔ ∃ e ∈ store, e.userId = u ∧ e.scopeId = s ∧ e.timestamp = ts := by
  simp [List.any_eq_true, and_assoc]

lemma submit_ok (cfg : ScopeConfig) (store : ScoreStore) (u s : Nat) (v : Int)
    (ts : Nat) (vf : Bool) (hv : 0 ≤ v)
    (hfresh : ∀ e ∈ store, ¬(e.userId = u ∧ e.scopeId = s ∧ e.timestamp = ts)) :
    submit cfg store u s v ts vf = .ok (store ++ [⟨u, s, v, ts, vf⟩]) := by
  have h1 : (decide (v < 0) && !cfg.allowNegative) = false := by
    simp [decide_eq_false (not_lt.mpr hv)]
  have h2 : store.any (fun e => e.userId == u && e.scopeId == s && e.timestamp == ts) = false := by
    rw [Bool.eq_false_iff]
    intro hc
    obtain ⟨e, he, hp⟩ := (dup_any_iff store u s ts).mp hc
    exact hfresh e he hp
  simp [submit, h1, h2]

lemma recompute_sum_append_two (store : ScoreStore) (u s : Nat) (v1 v2 : Int) (t1 t2 : Nat) :
    (recompute .SUM (store ++ [⟨u, s, v1, t1, true⟩, ⟨u, s, v2, t2, true⟩]) u s).total_score
      = (recompute .SUM store u s).total_score + (v1 + v2) := by
  simp [recompute, verifiedFor, List.filter_append, reduceScores, add_assoc]

/-- Claim C4: under SUM policy, two submissions for the same (user, scope)
pair both take effect in whichever order the per-key serialization runs them:
each order succeeds and the recomputed total reflects both values, so neither
submission is lost. -/
theorem claimC4_no_lost_update (cfg : ScopeConfig) (store : ScoreStore) (u s : Nat)
    (v1 v2 : Int) (t1 t2 : Nat)
    (hne : t1 ≠ t2)
    (h1 : ∀ e ∈ store, ¬(e.userId = u ∧ e.scopeId = s ∧ e.timestamp = t1))
    (h2 : ∀ e ∈ store, ¬(e.userId = u ∧ e.scopeId = s ∧ e.timestamp = t2))
    (hv1 : 0 ≤ v1) (hv2 : 0 ≤ v2) :
    (∃ s1 s12, submit cfg store u s v1 t1 true = .ok s1
      ∧ submit cfg s1 u s v2 t2 true = .ok s12
      ∧ (recompute .SUM s12 u s).total_score
          = (recompute .SUM store u s).total_score + (v1 + v2))
    ∧ ∃ s2 s21, submit cfg store u s v2 t2 true = .ok s2
      ∧ submit cfg s2 u s v1 t1 true = .ok s21
      ∧ (recompute .SUM s21 u s).total_score
          = (recompute .SUM store u s).total_score + (v1 + v2) := by
  constructor
  · refine ⟨store ++ [⟨u, s, v1, t1, true⟩], store ++ [⟨u, s, v1, t1, true⟩, ⟨u, s, v2, t2, true⟩],
      submit_ok cfg store u s v1 t1 true hv1 h1, ?_, recompute_sum_append_two store u s v1 v2 t1 t2⟩
    have hfresh2 : ∀ e ∈ store ++ [⟨u, s, v1, t1, true⟩],
        ¬(e.userId = u ∧ e.scopeId = s ∧ e.timestamp = t2) := by
      intro e he
      rcases List.mem_append.mp he with hs' | hs'
      · exact h2 e hs'
      · rcases List.mem_singleton.mp hs' with rfl
        exact fun hc => hne hc.2.2
    have := submit_ok cfg (store ++ [⟨u, s, v1, t1, true⟩]) u s v2 t2 true hv2 hfresh2
    rwa [List.append_assoc] at this
  · refine ⟨store ++ [⟨u, s, v2, t2, true⟩], store ++ [⟨u, s, v2, t2, true⟩, ⟨u, s, v1, t1, true⟩],
      submit_ok cfg store u s v2 t2 true hv2 h2, ?_, ?_⟩
    · have hfresh1 : ∀ e ∈ store ++ [⟨u, s, v2, t2, true⟩],
          ¬(e.userId = u ∧ e.scopeId = s ∧ e.timestamp = t1) := by
        intro e he
        rcases List.mem_append.mp he with hs' | hs'
        · exact h1 e hs'
        · rcases List.mem_singleton.mp hs' with rfl
          exact fun hc => hne hc.2.2.symm
      have := submit_ok cfg (store ++ [⟨u, s, v2, t2, true⟩]) u s v1 t1 true hv1 hfresh1
      rwa [List.append_assoc] at this
    · rw [recompute_sum_append_two store u s v2 v1 t2 t1, add_comm v2 v1]

/-- Witness for C4: submitting +10 and +20 for (user 1, scope 5) on an empty
store, in either serialization order, succeeds and yields a total reflecting
both submissions. -/
theorem claimC4_witness :
    (∃ s1 s12, submit ⟨.SUM, false⟩ [] 1 5 10 1 true = .ok s1
      ∧ submit ⟨.SUM, false⟩ s1 1 5 20 2 true = .ok s12
      ∧ (recompute .SUM s12 1 5).total_score
          = (recompute .SUM ([] : ScoreStore) 1 5).total_score + (10 + 20))
    ∧ ∃ s2 s21, submit ⟨.SUM, false⟩ [] 1 5 20 2 true = .ok s2
      ∧ submit ⟨.SUM, false⟩ s2 1 5 10 1 true = .ok s21
      ∧ (recompute .SUM s21 1 5).total_score
          = (recompute .SUM ([] : ScoreStore) 1 5).total_score + (10 + 20) :=
  claimC4_no_lost_update ⟨.SUM, false⟩ [] 1 5 10 20 1 2 (by decide)
    (fun e he => nomatch he) (fun e he => nomatch he) (by decide) (by decide)

/-- Claim C5: `submit` fails with ValidationError exactly when the score is
negative while the scope disallows negative scores, or an event with the same
(user, scope, timestamp) key already exists; on success the result is the old
store with exactly one new record appended, every existing record intact. -/
theorem claimC5_submit_validation (cfg : ScopeConfig) (store : ScoreStore) (u s : Nat)
    (v : Int) (ts : Nat) (vf : Bool) :
    (submit cfg store u s v ts vf = .error "ValidationError"
      ↔ ((v < 0 ∧ cfg.allowNegative = false)
          ∨ ∃ e ∈ store, e.userId = u ∧ e.scopeId = s ∧ e.timestamp = ts))
    ∧ ∀ store', submit cfg store u s v ts vf = .ok store'
        → store' = store ++ [⟨u, s, v, ts, vf⟩] := by
  by_cases hneg : v < 0 ∧ cfg.allowNegative = false
  · have hb1 : (decide (v < 0) && !cfg.allowNegative) = true := by
      simp [hneg.1, hneg.2]
    constructor
    · simp only [submit, hb1, if_true]
      exact ⟨fun _ => Or.inl hneg, fun _ => trivial⟩
    · intro store' hok
      simp [submit, hb1] at hok
  · have hb1 : (decide (v < 0) && !cfg.allowNegative) = false := by
      rcases Bool.eq_false_or_eq_true (decide (v < 0)) with hdv | hdv
      swap
      · simp [hdv]
      · have hv : v < 0 := of_decide_eq_true hdv
        have ha : cfg.allowNegative = true := by
          rcases Bool.eq_false_or_eq_true cfg.allowNegative with ha | ha
          · exact ha
          · exact absurd ⟨hv, ha⟩ hneg
        simp [hdv, ha]
    by_cases hdup : ∃ e ∈ store, e.userId = u ∧ e.scopeId = s ∧ e.timestamp = ts
    · have hb2 : store.any
          (fun e => e.userId == u && e.scopeId == s && e.timestamp == ts) = true :=
        (dup_any_iff store u s ts).mpr hdup
      constructor
      · simp only [submit, hb1, Bool.false_eq_true, if_false, hb2, if_true]
        exact ⟨fun _ => Or.inr hdup, fun _ => trivial⟩
      · intro store' hok
        simp [submit, hb1, hb2] at hok
    · have hb2 : store.any
          (fun e => e.userId == u && e.scopeId == s && e.timestamp == ts) = false := by
        rw [Bool.eq_false_iff]
        exact fun hc => hdup ((dup_any_iff store u s ts).mp hc)
      constructor
      · simp only [submit, hb1, Bool.false_eq_true, if_false, hb2]
        constructor
        · intro h
          exact absurd h (by simp)
        · intro h
          exfalso
          rcases h with h | h
          · exact hneg h
          · exact hdup h
      · intro store' hok
        simp only [submit, hb1, Bool.false_eq_true, if_false, hb2,
          Except.ok.injEq] at hok
        exact hok.symm

/-- Witness for C5: on a one-event store, a negative score is rejected, and a
fresh submission appends exactly the one new record. -/
theorem claimC5_witness :
    (submit ⟨.SUM, false⟩ [⟨1, 5, 100, 10, true⟩] 1 5 (-1) 12 true = .error "ValidationError")
    ∧ ([⟨1, 5, 100, 10, true⟩, ⟨1, 5, 50, 11, true⟩] : ScoreStore)
        = [⟨1, 5, 100, 10, true⟩] ++ [⟨1, 5, 50, 11, true⟩] :=
  ⟨(claimC5_submit_validation ⟨.SUM, false⟩ [⟨1, 5, 100, 10, true⟩] 1 5 (-1) 12 true).1.mpr
      (Or.inl ⟨by decide, rfl⟩),
   (claimC5_submit_validation ⟨.SUM, false⟩ [⟨1, 5, 100, 10, true⟩] 1 5 50 11 true).2
      [⟨1, 5, 100, 10, true⟩, ⟨1, 5, 50, 11, true⟩] rfl⟩

/-- Claim C6: the Aggregation Engine run is idempotent — running it a second
time for the same pair with no new score events leaves the aggregate store,
and hence the stored Aggregate (total_score, games_played, high_score,
last_played), exactly as after the first run. -/
theorem claimC6_recompute_idempotent (p : Policy) (store : ScoreStore)
    (aggs : AggStore) (u s : Nat) :
    runRecompute p store (runRecompute p store aggs u s) u s
      = runRecompute p store aggs u s := by
  simp [runRecompute, writeAgg, List.filter_filter]

/-- Claim C8: `eventsFor` returns exactly the pair's score events, ordered by
score descending and then timestamp descending — the stored default ordering
of `Score` rows. -/
theorem claimC8_eventsFor_ordering (store : ScoreStore) (u s : Nat) :
    (eventsFor store u s).Perm (eventsOf store u s)
    ∧ (eventsFor store u s).Pairwise scoreBefore
    ∧ ∀ e ∈ eventsFor store u s, e.userId = u ∧ e.scopeId = s := by
  refine ⟨List.perm_insertionSort _ _, List.sorted_insertionSort _ _, ?_⟩
  intro e he
  have hmem : e ∈ eventsOf store u s :=
    (List.perm_insertionSort scoreBefore (eventsOf store u s)).mem_iff.mp he
  have := List.of_mem_filter hmem
  simp only [Bool.and_eq_true, beq_iff_eq] at this
  exact this

/-- Witness for C8 on `stTwice`: the result is a permutation of the pair's
events, and its head belongs to the pair (user 1, scope 5). -/
theorem claimC8_witness :
    (eventsFor stTwice 1 5).Perm (eventsOf stTwice 1 5)
    ∧ ({ userId := 1, scopeId := 5, score := 100, timestamp := 20,
          verified := true } : ScoreEvent).userId = 1 :=
  ⟨(claimC8_eventsFor_ordering stTwice 1 5).1,
   ((claimC8_eventsFor_ordering stTwice 1 5).2.2 _ (by decide)).1⟩

lemma hasEntry_of_mem {db : Database} {e : LBRow} (h : e ∈ db.entries) :
    hasEntry db e.id = true := by
  simp only [hasEntry, List.any_eq_true]
  exact ⟨e, h, by simp⟩

/-- A database with one activity (7), one user (1) and one leaderboard-entry
row owned by both. -/
def dbOne : Database :=
  { activities := [7], users := [1], entries := [⟨0, 7, 1, 100, some 1⟩] }

/-- Counterexample to C7 as stated: deleting user 1 — an operation that does
not delete the owning activity — removes the leaderboard entry, because
`LeaderboardEntry.user` also carries `on_delete=CASCADE`
(`models.py` lines 112–114). -/
theorem claimC7_counterexample :
    ¬ ∀ (db : Database) (op : DbOp) (e : LBRow),
        e ∈ db.entries → hasEntry (applyOp db op) e.id = false →
        op = DbOp.deleteActivity e.activityId := by
  intro h
  have := h dbOne (DbOp.deleteUser 1) ⟨0, 7, 1, 100, some 1⟩ (by decide) (by decide)
  exact absurd this (by decide)

/-- Claim C7 (amended): a leaderboard-entry row, once created, disappears only
through one of the two declared cascades — deletion of its owning activity or
deletion of its user; creating or updating entries never removes a row. -/
theorem claimC7_amended_entry_deletion (db : Database) (op : DbOp) (e : LBRow)
    (hmem : e ∈ db.entries)
    (hgone : hasEntry (applyOp db op) e.id = false) :
    op = DbOp.deleteActivity e.activityId ∨ op = DbOp.deleteUser e.userId := by
  cases op with
  | createEntry row =>
    exfalso
    by_cases hdup : db.entries.any
        (fun x => x.activityId == row.activityId && x.userId == row.userId) = true
    · rw [show applyOp db (DbOp.createEntry row) = db by simp [applyOp, hdup]] at hgone
      exact absurd (hasEntry_of_mem hmem) (by simp [hgone])
    · have hgone' : hasEntry { db with entries := db.entries ++ [row] } e.id = false := by
        have hfalse : db.entries.any
            (fun x => x.activityId == row.activityId && x.userId == row.userId) = false :=
          Bool.eq_false_iff.mpr hdup
        rwa [show applyOp db (DbOp.createEntry row)
            = { db with entries := db.entries ++ [row] } by
          simp [applyOp, hfalse]] at hgone
      have hmem2 : e ∈ ({ db with entries := db.entries ++ [row] } : Database).entries :=
        List.mem_append.mpr (Or.inl hmem)
      exact absurd (hasEntry_of_mem hmem2) (by simp [hgone'])
  | updateEntry a u total rank =>
    exfalso
    have hmem' : (if e.activityId == a && e.userId == u then
          { e with total_score := total, rank := rank } else e)
        ∈ (applyOp db (DbOp.updateEntry a u total rank)).entries := by
      simp only [applyOp]
      exact List.mem_map_of_mem _ hmem
    have hid : (if e.activityId == a && e.userId == u then
          { e with total_score := total, rank := rank } else e).id = e.id := by
      by_cases hc : (e.activityId == a && e.userId == u) = true
      · simp [hc]
      · simp [hc]
    have := hasEntry_of_mem hmem'
    rw [hid] at this
    exact absurd this (by simp [hgone])
  | deleteActivity a =>
    left
    by_contra hne
    have hne' : e.activityId ≠ a := fun hc => hne (by rw [hc])
    have hmem' : e ∈ (applyOp db (DbOp.deleteActivity a)).entries := by
      simp only [applyOp]
      exact List.mem_filter.mpr ⟨hmem, by simpa using hne'⟩
    exact absurd (hasEntry_of_mem hmem') (by simp [hgone])
  | deleteUser u =>
    right
    by_contra hne
    have hne' : e.userId ≠ u := fun hc => hne (by rw [hc])
    have hmem' : e ∈ (applyOp db (DbOp.deleteUser u)).entries := by
      simp only [applyOp]
      exact List.mem_filter.mpr ⟨hmem, by simpa using hne'⟩
    exact absurd (hasEntry_of_mem hmem') (by simp [hgone])

/-- Witness for the amended C7: on `dbOne`, deleting activity 7 removes the
entry, and the amended theorem attributes the removal to one of the two
cascades. -/
theorem claimC7_witness :
    DbOp.deleteActivity 7 = DbOp.deleteActivity (7 : Nat)
      ∨ DbOp.deleteActivity 7 = DbOp.deleteUser (1 : Nat) :=
  claimC7_amended_entry_deletion dbOne (DbOp.deleteActivity 7) ⟨0, 7, 1, 100, some 1⟩
    (by decide) (by decide)

/-- Claim C9: a Score created through `ScoreSerializer.create` always has
`is_verified = false` and its user set to the requesting user; only the
payload's game and score influence the record, so payloads differing in any
other field create identical rows. -/
theorem claimC9_score_create (requestUser : Nat) (payload : ScorePayload) :
    (ScoreSerializer.create requestUser payload).is_verified = false
    ∧ (ScoreSerializer.create requestUser payload).user = requestUser
    ∧ ∀ other : ScorePayload, other.game = payload.game → other.score = payload.score →
        ScoreSerializer.create requestUser other = ScoreSerializer.create requestUser payload := by
  refine ⟨rfl, rfl, ?_⟩
  intro other hg hs
  simp [ScoreSerializer.create, hg, hs]

/-- Witness for C9: a payload that tries to set `is_verified := true` and a
foreign user id creates the same row as the plain payload — unverified and
owned by the requester. -/
theorem claimC9_witness :
    (ScoreSerializer.create 1 ⟨3, 40, some true, some 999⟩).is_verified = false
    ∧ (ScoreSerializer.create 1 ⟨3, 40, some true, some 999⟩).user = 1
    ∧ ScoreSerializer.create 1 ⟨3, 40, none, none⟩
        = ScoreSerializer.create 1 ⟨3, 40, some true, some 999⟩ :=
  ⟨(claimC9_score_create 1 ⟨3, 40, some true, some 999⟩).1,
   (claimC9_score_create 1 ⟨3, 40, some true, some 999⟩).2.1,
   (claimC9_score_create 1 ⟨3, 40, some true, some 999⟩).2.2 ⟨3, 40, none, none⟩ rfl rfl⟩

/-- Claim C10: the serialized user representation carries exactly id, username
and email; the write-only password never reaches the output, so two users
differing only in password serialize identically. -/
theorem claimC10_user_serializer (u v : UserRow)
    (hid : u.id = v.id) (hname : u.username = v.username) (hmail : u.email = v.email) :
    UserSerializer.toRepresentation u = UserSerializer.toRepresentation v
    ∧ (UserSerializer.toRepresentation u).id = u.id
    ∧ (UserSerializer.toRepresentation u).username = u.username
    ∧ (UserSerializer.toRepresentation u).email = u.email := by
  refine ⟨?_, rfl, rfl, rfl⟩
  simp [UserSerializer.toRepresentation, hid, hname, hmail]

/-- Witness for C10: two users identical except for their passwords produce
the same serialized output. -/
theorem claimC10_witness :
    UserSerializer.toRepresentation ⟨1, "alice", "a@x.com", "hunter2"⟩
      = UserSerializer.toRepresentation ⟨1, "alice", "a@x.com", "swordfish"⟩ :=
  (claimC10_user_serializer ⟨1, "alice", "a@x.com", "hunter2"⟩
    ⟨1, "alice", "a@x.com", "swordfish"⟩ rfl rfl rfl).1
